import Mathlib

/-!
Verification development for the gtc-market-bot repository.

The repository contains two revisions of a market-notification bot:

* gtc_bot_async.py : a long-running bot with two periodic jobs,
  daily_summary and instant_alerts, which fetch spot prices for a fixed
  WATCHLIST, keep an in-memory last-seen-price dictionary in
  context.bot_data, and send Telegram messages;
* send_once.py : a one-shot script dispatched on RUN_MODE that fetches
  daily close series, computes percentage changes, and sends exactly one
  report (or, in alert mode, a report only when a threshold is crossed).

Shallow embedding conventions:

* Python floats are modelled as exact rationals (Price := Rat); binary
  floating-point rounding is not modelled, and the decimal rendering of
  numbers (Python format specs such as .4f and the thousands separator)
  is approximated by exact rational rounding half-up.
* Python strings are Lean strings; Python string primitives (endswith,
  slicing, len) are modelled over the code-point list String.toList,
  which matches Python semantics of strings as code-point sequences.
* Network calls (Alpha Vantage quotes and series, the news API) are
  oracle parameters: a fetch function stands for the parsed result of
  the corresponding HTTP request, with None / an empty list standing for
  the error branches that the source turns into None or [].
* Python dictionaries are association lists with first-match lookup;
  assignment conses a new binding, which is observationally the same.
* Telegram sends are collected into an output list (one element per
  sendMessage or sendPhoto call) instead of performing I/O.
-/

/-- Prices and percentage moves: Python floats modelled as rationals. -/
abbrev Price := Rat

/-- Python s.endswith(suffix), over code points. -/
def pyEndsWith (s suffix : String) : Bool :=
  suffix.toList.isSuffixOf s.toList

/-- Python s[:n], over code points. -/
def pyTake (s : String) (n : Nat) : String :=
  String.mk (s.toList.take n)

/-- First-match association-list lookup, modelling Python dict lookup. -/
def assocLookup {α : Type} (l : List (String × α)) (s : String) : Option α :=
  match l with
  | [] => none
  | (k, v) :: rest => if s = k then some v else assocLookup rest s

/-- Python dict assignment d[k] = v, modelled by consing a binding. -/
def assocInsert {α : Type} (l : List (String × α)) (s : String) (v : α) :
    List (String × α) :=
  (s, v) :: l

/-- The in-memory last-seen-price dictionary of gtc_bot_async.py. -/
abbrev PriceMap := List (String × Price)

/-- Lookup in a price map (Python last_prices.get(s)). -/
def mapLookup (m : PriceMap) (s : String) : Option Price :=
  assocLookup m s

/-- Python last_prices[s] = p. -/
def mapInsert (m : PriceMap) (s : String) (p : Price) : PriceMap :=
  assocInsert m s p

/-- context.bot_data, a dictionary whose relevant entries are price maps. -/
abbrev BotData := List (String × PriceMap)

/-- Lookup in bot_data. -/
def bdLookup (bd : BotData) (k : String) : Option PriceMap :=
  assocLookup bd k

/-- Assignment into bot_data. -/
def bdInsert (bd : BotData) (k : String) (v : PriceMap) : BotData :=
  assocInsert bd k v

/-- Insert a thousands separator every three digits, on a reversed digit
list (helper for the Python comma format spec). -/
def group3 : List Char → List Char
  | a :: b :: c :: d :: tl => a :: b :: c :: ',' :: group3 (d :: tl)
  | l => l

/-- Decimal digits of a natural number with thousands separators. -/
def natGrouped (n : Nat) : String :=
  String.mk ((group3 (toString n).toList.reverse).reverse)

/-- Left-pad a digit string with zeros to a given width. -/
def padZeros (s : String) (w : Nat) : String :=
  String.mk (List.replicate (w - s.length) '0') ++ s

/-- Python format spec .Nf (fixed-point with N decimals), approximated
by exact rational rounding half-up. -/
def fmtFixed (digits : Nat) (x : Price) : String :=
  let scaled : Int := round (|x| * (10 : Price) ^ digits)
  let ip : Nat := (scaled / ((10 : Int) ^ digits)).toNat
  let fp : Nat := (scaled % ((10 : Int) ^ digits)).toNat
  (if x < 0 then "-" else "") ++ toString ip ++ "." ++ padZeros (toString fp) digits

/-- Python format spec ,.Nf (fixed-point with thousands separators),
approximated by exact rational rounding half-up. -/
def fmtGrouped (digits : Nat) (x : Price) : String :=
  let scaled : Int := round (|x| * (10 : Price) ^ digits)
  let ip : Nat := (scaled / ((10 : Int) ^ digits)).toNat
  let fp : Nat := (scaled % ((10 : Int) ^ digits)).toNat
  (if x < 0 then "-" else "") ++ natGrouped ip ++ "." ++ padZeros (toString fp) digits

/-! ### gtc_bot_async.py -/

/-- WATCHLIST of gtc_bot_async.py, line 14. -/
def WATCHLIST : List String := ["EURUSD", "XAUUSD", "GBPUSD", "USDJPY", "BTCUSD"]

/-- ALERT_MOVE_PCT of gtc_bot_async.py, line 15 (0.5). -/
def ALERT_MOVE_PCT : Price := 1 / 2

/-- Which quote endpoint price_for dispatches to. -/
inductive PriceSource where
  | fx : PriceSource
  | crypto : PriceSource
deriving DecidableEq

/-- Dispatch structure of price_for (gtc_bot_async.py lines 43-48): the
first branch takes 6-character symbols ending in USD to get_fx_price,
the second takes remaining USD-suffixed symbols starting with BTC or ETH
to get_crypto_price, and the fallthrough is get_fx_price. -/
def price_for_source (symbol : String) : PriceSource :=
  if pyEndsWith symbol "USD" = true ∧ symbol.length = 6 then PriceSource.fx
  else if pyEndsWith symbol "USD" = true ∧
      (pyTake symbol 3 = "BTC" ∨ pyTake symbol 3 = "ETH") then PriceSource.crypto
  else PriceSource.fx

/-- fmt of gtc_bot_async.py lines 50-51: four decimals for USD/JPY/INR
suffixes, two otherwise, with thousands separators. -/
def fmt (symbol : String) (p : Price) : String :=
  if pyEndsWith symbol "USD" = true ∨ pyEndsWith symbol "JPY" = true ∨
      pyEndsWith symbol "INR" = true
  then fmtGrouped 4 p else fmtGrouped 2 p

/-- Header line of daily_summary (line 55), parametrized by the
formatted current time. -/
def dailyHeader (now : String) : String :=
  "📊 *GTC Academy Market Update*\n_" ++ now ++ "_\n"

/-- The line daily_summary appends for one symbol (lines 59-62). -/
def dailyLine (fetch : String → Option Price) (s : String) : String :=
  match fetch s with
  | none => "• " ++ s ++ ": data unavailable"
  | some p => "• " ++ s ++ ": " ++ fmt s p

/-- One iteration of the daily_summary loop (lines 57-64): append one
line, and on a successful fetch store the price. -/
def daily_step (fetch : String → Option Price) (st : List String × PriceMap)
    (s : String) : List String × PriceMap :=
  match fetch s with
  | none => (st.1 ++ ["• " ++ s ++ ": data unavailable"], st.2)
  | some p => (st.1 ++ ["• " ++ s ++ ": " ++ fmt s p], mapInsert st.2 s p)

/-- The daily_summary loop over a symbol list. -/
def dailyRun (fetch : String → Option Price) (wl : List String)
    (st : List String × PriceMap) : List String × PriceMap :=
  wl.foldl (daily_step fetch) st

/-- daily_summary (gtc_bot_async.py lines 53-65): the built message
lines and the updated last-prices map. fetch stands for price_for,
whose network result is an oracle here. -/
def daily_summary (fetch : String → Option Price) (now : String)
    (last_prices : PriceMap) : List String × PriceMap :=
  dailyRun fetch WATCHLIST ([dailyHeader now], last_prices)

/-- daily_summary at the level of context.bot_data: reads last_prices
via setdefault, runs the loop, and sends the joined message once. The
second component is the list of sendMessage calls made. -/
def daily_summary_job (fetch : String → Option Price) (now : String)
    (bd : BotData) : BotData × List String :=
  let lp := (bdLookup bd "last_prices").getD []
  let r := daily_summary fetch now lp
  (bdInsert bd "last_prices" r.2, [String.intercalate "\n" r.1])

/-- One alert message of instant_alerts, as structured data. -/
structure Alert where
  symbol : String
  move : Price
  price : Price
deriving DecidableEq

/-- The move expression of instant_alerts, line 75. -/
def instantMove (p old : Price) : Price :=
  (p - old) / old * 100

/-- Rendered text of one instant alert (lines 77-79). -/
def alertText (a : Alert) : String :=
  (if a.move > 0 then "🔺" else "🔻") ++ " *" ++ a.symbol ++ "* moved " ++
    fmtFixed 2 a.move ++ "% → " ++ fmt a.symbol a.price

/-- One iteration of the instant_alerts loop (gtc_bot_async.py lines
69-85). A falsy stored price (absent entry, or 0.0) takes the else
branch that overwrites the entry without alerting; a truthy one computes
the move, and only a move at or above ALERT_MOVE_PCT sends an alert and
stores the new price. -/
def instant_step (fetch : String → Option Price) (st : List Alert × PriceMap)
    (s : String) : List Alert × PriceMap :=
  match fetch s with
  | none => st
  | some p =>
    match mapLookup st.2 s with
    | some old =>
      if old ≠ 0 then
        if |instantMove p old| ≥ ALERT_MOVE_PCT then
          (st.1 ++ [⟨s, instantMove p old, p⟩], mapInsert st.2 s p)
        else st
      else (st.1, mapInsert st.2 s p)
    | none => (st.1, mapInsert st.2 s p)

/-- The instant_alerts loop over a symbol list. -/
def instantRun (fetch : String → Option Price) (wl : List String)
    (st : List Alert × PriceMap) : List Alert × PriceMap :=
  wl.foldl (instant_step fetch) st

/-- instant_alerts (gtc_bot_async.py lines 67-85): the emitted alerts in
order and the updated last-prices map. -/
def instant_alerts (fetch : String → Option Price) (m : PriceMap) :
    List Alert × PriceMap :=
  instantRun fetch WATCHLIST ([], m)

/-- instant_alerts at the level of context.bot_data; the second
component is the list of sendMessage calls made. -/
def instant_alerts_job (fetch : String → Option Price) (bd : BotData) :
    BotData × List String :=
  let lp := (bdLookup bd "last_prices").getD []
  let r := instant_alerts fetch lp
  (bdInsert bd "last_prices" r.2, r.1.map alertText)

/-- The condition under which instant_alerts emits an alert for a
symbol: the fetch succeeded, a nonzero previous price is stored, and
the absolute move meets ALERT_MOVE_PCT. -/
def alertCond (fetch : String → Option Price) (m : PriceMap) (s : String) : Prop :=
  ∃ p old, fetch s = some p ∧ mapLookup m s = some old ∧ old ≠ 0 ∧
    |instantMove p old| ≥ ALERT_MOVE_PCT

/-- The last-prices entry for a symbol after one instant_alerts pass,
as a function of the fetch result and the previously stored price: the
entry keeps its old value exactly when a nonzero previous price exists
and the move stayed below the threshold (or the fetch failed). -/
def finalEntry (fetch : String → Option Price) (m : PriceMap) (s : String) :
    Option Price :=
  match fetch s with
  | none => mapLookup m s
  | some p =>
    match mapLookup m s with
    | some old =>
      if old ≠ 0 ∧ ¬ |instantMove p old| ≥ ALERT_MOVE_PCT then some old else some p
    | none => some p

/-! ### send_once.py -/

/-- pct_change of send_once.py, lines 130-131. -/
def pct_change (new old : Price) : Price :=
  (new - old) / old * 100

/-- The spec formula for the percentage move, written from the glossary
sentence: (new - old) / old * 100. Kept separate from the source
definitions so that the refinement claim compares the two. -/
def specPctMove (new old : Price) : Price :=
  (new - old) / old * 100

/-- One outbound Telegram API call of send_once.py. -/
inductive TgCall where
  | sendMessage : String → TgCall
  | sendPhoto : String → TgCall
deriving DecidableEq

/-- fmt_pair_line of send_once.py, lines 133-134. -/
def fmt_pair_line (name : String) (latest : Option Price) : String :=
  match latest with
  | some v => "• " ++ name ++ ": " ++ fmtFixed 4 v
  | none => "• " ++ name ++ ": n/a"

/-- The optional headlines block appended by run_daily and run_weekly
(lines 152-157 and 206-211). -/
def headlinesBlock (headlines : List (String × String)) : List String :=
  if headlines = [] then []
  else "🗞 <b>Top Headlines</b>" ::
    headlines.map (fun ts =>
      "• " ++ ts.1 ++ (if ts.2 ≠ "" then " <i>(" ++ ts.2 ++ ")</i>" else ""))

/-- run_daily (send_once.py lines 137-158): three realtime quotes, a
fixed n/a gold line, optional headlines, one sendMessage. -/
def run_daily (fxRealtime : String → String → Option Price)
    (headlines : List (String × String)) (now : String) : List TgCall :=
  let eur := fxRealtime "EUR" "USD"
  let gbp := fxRealtime "GBP" "USD"
  let jpy := fxRealtime "USD" "JPY"
  let xau : Option Price := none
  let msg := ["📊 <b>GTC Academy — Daily Market Snapshot</b>", now, "",
    fmt_pair_line "EUR/USD" eur, fmt_pair_line "GBP/USD" gbp,
    fmt_pair_line "USD/JPY" jpy, fmt_pair_line "XAU/USD" xau, ""] ++
    headlinesBlock headlines
  [TgCall.sendMessage (String.intercalate "\n" msg)]

/-- Descending sort on (date, close) pairs: Python list.sort with
reverse=True orders pairs by descending tuple order, which on distinct
dates is descending date order. -/
def seriesGe (a b : String × Price) : Prop :=
  b.1 < a.1 ∨ (a.1 = b.1 ∧ b.2 ≤ a.2)

instance : DecidableRel seriesGe := fun a b => by
  unfold seriesGe; infer_instance

instance : IsTotal (String × Price) seriesGe := by
  constructor
  intro a b
  rcases lt_trichotomy a.1 b.1 with h | h | h
  · exact Or.inr (Or.inl h)
  · rcases le_total a.2 b.2 with h2 | h2
    · exact Or.inr (Or.inr ⟨h.symm, h2⟩)
    · exact Or.inl (Or.inr ⟨h, h2⟩)
  · exact Or.inl (Or.inl h)

instance : IsTrans (String × Price) seriesGe := by
  constructor
  intro a b c hab hbc
  rcases hab with h1 | ⟨h1, h1l⟩ <;> rcases hbc with h2 | ⟨h2, h2l⟩
  · exact Or.inl (lt_trans h2 h1)
  · exact Or.inl (h2 ▸ h1)
  · exact Or.inl (h1 ▸ h2)
  · exact Or.inr ⟨h1.trans h2, h2l.trans h1l⟩

/-- out.sort(reverse=True) of the series helpers (send_once.py lines
74, 88, 103). -/
def sortSeries (l : List (String × Price)) : List (String × Price) :=
  l.insertionSort seriesGe

/-- fx_daily_series (send_once.py lines 65-78): the parsed (date,
close) items of the FX_DAILY response, sorted newest first. raw stands
for the parsed successful response; the error branch returns []. -/
def fx_daily_series (raw : String → String → List (String × Price))
    (from_cur to_cur : String) : List (String × Price) :=
  sortSeries (raw from_cur to_cur)

/-- crypto_daily (send_once.py lines 80-92). -/
def crypto_daily (raw : String → String → List (String × Price))
    (symbol market : String) : List (String × Price) :=
  sortSeries (raw symbol market)

/-- equity_daily (send_once.py lines 94-107). -/
def equity_daily (raw : String → List (String × Price)) (symbol : String) :
    List (String × Price) :=
  sortSeries (raw symbol)

/-- The pairs list of run_alert, lines 162-164. -/
def alert_pairs : List (String × String × String) :=
  [("EUR/USD", "EUR", "USD"), ("GBP/USD", "GBP", "USD"), ("USD/JPY", "USD", "JPY")]

/-- The alert line for one pair, line 176. -/
def alertLine (label : String) (latest chg : Price) : String :=
  "• " ++ label ++ ": " ++ fmtFixed 6 latest ++ " (" ++
    (if chg ≥ 0 then "▲" else "▼") ++ fmtFixed 2 |chg| ++ "%)"

/-- One iteration of the run_alert loop (lines 167-176): skip a series
shorter than 2, otherwise compare latest and previous close against the
threshold, appending a line and setting fired when crossed. -/
def alert_step (fs : String → String → List (String × Price)) (thr : Price)
    (st : List String × Bool) (pr : String × String × String) :
    List String × Bool :=
  match fs pr.2.1 pr.2.2 with
  | x :: y :: _ =>
    if |pct_change x.2 y.2| ≥ thr then
      (st.1 ++ [alertLine pr.1 x.2 (pct_change x.2 y.2)], true)
    else st
  | _ => st

/-- run_alert (send_once.py lines 160-180): one sendMessage when some
pair fired, none otherwise. fs stands for fx_daily_series applied to
the parsed responses (already sorted newest first). -/
def run_alert (fs : String → String → List (String × Price)) (thr : Price)
    (now : String) : List TgCall :=
  let r := alert_pairs.foldl (alert_step fs thr) ([], false)
  if r.2 then
    [TgCall.sendMessage (String.intercalate "\n"
      (["🔔 <b>GTC Market Alert</b>", now, ""] ++ r.1))]
  else []

/-- Whether run_alert fires for one pair: the series has at least two
entries and the latest-versus-previous move meets the threshold. -/
def pairFires (fs : String → String → List (String × Price)) (thr : Price)
    (pr : String × String × String) : Prop :=
  match fs pr.2.1 pr.2.2 with
  | x :: y :: _ => |pct_change x.2 y.2| ≥ thr
  | _ => False

/-- Boolean form of pairFires. -/
def pairFiresB (fs : String → String → List (String × Price)) (thr : Price)
    (pr : String × String × String) : Bool :=
  match fs pr.2.1 pr.2.2 with
  | x :: y :: _ => decide (|pct_change x.2 y.2| ≥ thr)
  | _ => false

/-- The line run_alert contributes for one pair, when it fires. -/
def alertLineOf (fs : String → String → List (String × Price)) (thr : Price)
    (pr : String × String × String) : Option String :=
  match fs pr.2.1 pr.2.2 with
  | x :: y :: _ =>
    if |pct_change x.2 y.2| ≥ thr then
      some (alertLine pr.1 x.2 (pct_change x.2 y.2))
    else none
  | _ => none

/-- weekly_line (send_once.py lines 190-195): n/a for a series shorter
than 6, otherwise latest versus the close 5 sessions back. -/
def weekly_line (name : String) (series : List (String × Price)) : String :=
  if h : series.length < 6 then "• " ++ name ++ ": n/a"
  else
    let latest := (series.get ⟨0, by omega⟩).2
    let week_ago := (series.get ⟨5, by omega⟩).2
    let chg := pct_change latest week_ago
    "• " ++ name ++ ": " ++ fmtFixed 4 latest ++ " (" ++
      (if chg ≥ 0 then "▲" else "▼") ++ fmtFixed 2 |chg| ++ "% w/w)"

/-- run_weekly (send_once.py lines 182-212): five series, five weekly
lines, optional headlines, one sendMessage. -/
def run_weekly (fxRaw cryptoRaw : String → String → List (String × Price))
    (equityRaw : String → List (String × Price))
    (headlines : List (String × String)) (now : String) : List TgCall :=
  let eur := fx_daily_series fxRaw "EUR" "USD"
  let gbp := fx_daily_series fxRaw "GBP" "USD"
  let jpy := fx_daily_series fxRaw "USD" "JPY"
  let btc := crypto_daily cryptoRaw "BTC" "USD"
  let spy := equity_daily equityRaw "SPY"
  let msg := ["🗓️ <b>GTC Weekly Market Recap</b>", now, "",
    weekly_line "EUR/USD" eur, weekly_line "GBP/USD" gbp,
    weekly_line "USD/JPY" jpy, weekly_line "BTC/USD" btc,
    weekly_line "SPY (S&P500)" spy, ""] ++ headlinesBlock headlines
  [TgCall.sendMessage (String.intercalate "\n" msg)]

/-- run_chart (send_once.py lines 214-237): three 30-session series are
rendered into one PNG by matplotlib (opaque here) and one sendPhoto is
made with a fixed caption. -/
def run_chart (fxRaw cryptoRaw : String → String → List (String × Price))
    (equityRaw : String → List (String × Price)) (now : String) : List TgCall :=
  let _eur := (fx_daily_series fxRaw "EUR" "USD").take 30
  let _btc := (crypto_daily cryptoRaw "BTC" "USD").take 30
  let _spy := (equity_daily equityRaw "SPY").take 30
  [TgCall.sendPhoto ("📈 <b>Market Charts (30 sessions)</b>\n" ++ now)]

/-- Which run_* function the entry block selects. -/
inductive RunChoice where
  | daily : RunChoice
  | weekly : RunChoice
  | chart : RunChoice
  | alert : RunChoice
deriving DecidableEq

/-- The RUN_MODE dispatch of the entry block (send_once.py lines
240-249). -/
def mainDispatch (mode : String) : RunChoice :=
  if mode = "daily" then RunChoice.daily
  else if mode = "weekly" then RunChoice.weekly
  else if mode = "chart" then RunChoice.chart
  else RunChoice.alert

/-- A concrete fetch function for counterexample evaluation: the EURUSD
quote comes back 1.001, every other fetch fails. -/
def cexFetch : String → Option Price :=
  fun s => if s = "EURUSD" then some (1001 / 1000) else none

/-- A concrete stored last-prices map for counterexample evaluation:
EURUSD was last seen at 1. -/
def cexMap : PriceMap := [("EURUSD", 1)]

/-! ### Helper lemmas: association lists -/

theorem assocLookup_insert_self {α : Type} (l : List (String × α)) (k : String)
    (v : α) : assocLookup (assocInsert l k v) k = some v := by
  simp [assocLookup, assocInsert]

theorem assocLookup_insert_ne {α : Type} (l : List (String × α)) (k s : String)
    (v : α) (h : s ≠ k) : assocLookup (assocInsert l k v) s = assocLookup l s := by
  simp [assocLookup, assocInsert, h]

theorem mapLookup_insert_self (m : PriceMap) (s : String) (p : Price) :
    mapLookup (mapInsert m s p) s = some p :=
  assocLookup_insert_self m s p

theorem mapLookup_insert_ne (m : PriceMap) (s t : String) (p : Price)
    (h : t ≠ s) : mapLookup (mapInsert m s p) t = mapLookup m t :=
  assocLookup_insert_ne m s t p h

/-! ### Helper lemmas: the daily_summary loop -/

theorem daily_step_lines (fetch : String → Option Price)
    (st : List String × PriceMap) (s : String) :
    (daily_step fetch st s).1 = st.1 ++ [dailyLine fetch s] := by
  unfold daily_step dailyLine
  cases fetch s <;> simp

theorem daily_step_map_ne (fetch : String → Option Price)
    (st : List String × PriceMap) (s t : String) (h : t ≠ s) :
    mapLookup (daily_step fetch st s).2 t = mapLookup st.2 t := by
  unfold daily_step
  cases fetch s
  · simp
  · simpa using mapLookup_insert_ne st.2 s t _ h

theorem daily_step_map_self (fetch : String → Option Price)
    (st : List String × PriceMap) (s : String) (p : Price)
    (h : fetch s = some p) :
    mapLookup (daily_step fetch st s).2 s = some p := by
  unfold daily_step
  rw [h]
  simpa using mapLookup_insert_self st.2 s p

theorem dailyRun_lines (fetch : String → Option Price) (wl : List String)
    (st : List String × PriceMap) :
    (dailyRun fetch wl st).1 = st.1 ++ wl.map (dailyLine fetch) := by
  induction wl generalizing st with
  | nil => simp [dailyRun]
  | cons t tl ih =>
    have hstep : dailyRun fetch (t :: tl) st = dailyRun fetch tl (daily_step fetch st t) := rfl
    rw [hstep, ih, daily_step_lines]
    simp

theorem dailyRun_map_keep (fetch : String → Option Price) (wl : List String)
    (st : List String × PriceMap) (s : String) (p : Price)
    (hf : fetch s = some p) (hm : mapLookup st.2 s = some p) :
    mapLookup (dailyRun fetch wl st).2 s = some p := by
  induction wl generalizing st with
  | nil => simpa [dailyRun] using hm
  | cons t tl ih =>
    have hstep : dailyRun fetch (t :: tl) st = dailyRun fetch tl (daily_step fetch st t) := rfl
    rw [hstep]
    by_cases hts : s = t
    · subst hts
      exact ih _ (daily_step_map_self fetch st s p hf)
    · exact ih _ ((daily_step_map_ne fetch st t s hts).trans hm)

theorem dailyRun_map_mem (fetch : String → Option Price) (wl : List String)
    (st : List String × PriceMap) (s : String) (p : Price)
    (hs : s ∈ wl) (hf : fetch s = some p) :
    mapLookup (dailyRun fetch wl st).2 s = some p := by
  induction wl generalizing st with
  | nil => cases hs
  | cons t tl ih =>
    have hstep : dailyRun fetch (t :: tl) st = dailyRun fetch tl (daily_step fetch st t) := rfl
    rw [hstep]
    by_cases hts : s = t
    · subst hts
      exact dailyRun_map_keep fetch tl _ s p hf (daily_step_map_self fetch st s p hf)
    · rcases List.mem_cons.mp hs with h | h
      · exact absurd h hts
      · exact ih _ h

/-! ### Helper lemmas: the instant_alerts loop -/

theorem instant_step_pair (fetch : String → Option Price) (al : List Alert)
    (m : PriceMap) (s : String) :
    instant_step fetch (al, m) s =
      (al ++ (instant_step fetch ([], m) s).1, (instant_step fetch ([], m) s).2) := by
  unfold instant_step
  cases hf : fetch s with
  | none => simp
  | some p =>
    cases hl : mapLookup m s with
    | none => simp
    | some old =>
      by_cases h0 : old ≠ 0
      · by_cases hm : |instantMove p old| ≥ ALERT_MOVE_PCT
        · simp [h0, hm]
        · simp [h0, hm]
      · simp [h0]

theorem instant_step_alert_symbol (fetch : String → Option Price) (m : PriceMap)
    (s : String) (a : Alert) :
    a ∈ (instant_step fetch ([], m) s).1 → a.symbol = s := by
  intro ha
  unfold instant_step at ha
  cases hf : fetch s with
  | none => rw [hf] at ha; simp at ha
  | some p =>
    rw [hf] at ha
    cases hl : mapLookup m s with
    | none => rw [hl] at ha; simp at ha
    | some old =>
      rw [hl] at ha
      by_cases h0 : old ≠ 0
      · by_cases hm : |instantMove p old| ≥ ALERT_MOVE_PCT
        · simp [h0, hm] at ha
          rw [ha]
        · simp [h0, hm] at ha
      · simp [h0] at ha

theorem instant_step_alert_iff (fetch : String → Option Price) (m : PriceMap)
    (s : String) :
    (∃ a ∈ (instant_step fetch ([], m) s).1, a.symbol = s) ↔ alertCond fetch m s := by
  unfold instant_step alertCond
  cases hf : fetch s with
  | none => simp
  | some p =>
    cases hl : mapLookup m s with
    | none => simp
    | some old =>
      by_cases h0 : old ≠ 0
      · by_cases hm : |instantMove p old| ≥ ALERT_MOVE_PCT
        · constructor
          · intro _; exact ⟨p, old, rfl, rfl, h0, hm⟩
          · intro _
            refine ⟨⟨s, instantMove p old, p⟩, ?_, rfl⟩
            simp [h0, hm]
        · simp [h0, hm]
      · simp [h0]

theorem instant_step_map_self (fetch : String → Option Price) (m : PriceMap)
    (s : String) :
    mapLookup (instant_step fetch ([], m) s).2 s = finalEntry fetch m s := by
  unfold instant_step finalEntry
  cases hf : fetch s with
  | none => simp
  | some p =>
    cases hl : mapLookup m s with
    | none => simpa using mapLookup_insert_self m s p
    | some old =>
      by_cases h0 : old ≠ 0
      · by_cases hm : |instantMove p old| ≥ ALERT_MOVE_PCT
        · simp [h0, hm, mapLookup_insert_self]
        · simp [h0, hm, hl]
      · simp [h0, mapLookup_insert_self]

theorem instant_step_map_ne (fetch : String → Option Price) (al : List Alert)
    (m : PriceMap) (s t : String) (h : t ≠ s) :
    mapLookup (instant_step fetch (al, m) s).2 t = mapLookup m t := by
  unfold instant_step
  cases hf : fetch s with
  | none => simp
  | some p =>
    cases hl : mapLookup m s with
    | none => simpa using mapLookup_insert_ne m s t p h
    | some old =>
      by_cases h0 : old ≠ 0
      · by_cases hm : |instantMove p old| ≥ ALERT_MOVE_PCT
        · simpa [h0, hm] using mapLookup_insert_ne m s t p h
        · simp [h0, hm]
      · simpa [h0] using mapLookup_insert_ne m s t p h

theorem alertCond_congr (fetch : String → Option Price) (m m2 : PriceMap)
    (s : String) (h : mapLookup m2 s = mapLookup m s) :
    alertCond fetch m2 s ↔ alertCond fetch m s := by
  unfold alertCond
  rw [h]

theorem finalEntry_congr (fetch : String → Option Price) (m m2 : PriceMap)
    (s : String) (h : mapLookup m2 s = mapLookup m s) :
    finalEntry fetch m2 s = finalEntry fetch m s := by
  unfold finalEntry
  rw [h]

theorem instantRun_decomp (fetch : String → Option Price) (wl : List String)
    (al : List Alert) (m : PriceMap) :
    instantRun fetch wl (al, m) =
      (al ++ (instantRun fetch wl ([], m)).1, (instantRun fetch wl ([], m)).2) := by
  induction wl generalizing al m with
  | nil => simp [instantRun]
  | cons t tl ih =>
    have h1 : instantRun fetch (t :: tl) (al, m) =
        instantRun fetch tl (instant_step fetch (al, m) t) := rfl
    have h2 : instantRun fetch (t :: tl) ([], m) =
        instantRun fetch tl (instant_step fetch ([], m) t) := rfl
    have hpair : instant_step fetch ([], m) t =
        ((instant_step fetch ([], m) t).1, (instant_step fetch ([], m) t).2) := rfl
    rw [h1, h2, instant_step_pair, hpair]
    rw [ih (al ++ (instant_step fetch ([], m) t).1) (instant_step fetch ([], m) t).2,
      ih (instant_step fetch ([], m) t).1 (instant_step fetch ([], m) t).2]
    simp

theorem instantRun_map_frame (fetch : String → Option Price) (wl : List String)
    (al : List Alert) (m : PriceMap) (s : String) :
    s ∉ wl → mapLookup (instantRun fetch wl (al, m)).2 s = mapLookup m s := by
  induction wl generalizing al m with
  | nil => intro _; simp [instantRun]
  | cons t tl ih =>
    intro hs
    have hts : s ≠ t := fun h => hs (h ▸ List.mem_cons_self t tl)
    have htl : s ∉ tl := fun h => hs (List.mem_cons_of_mem t h)
    have h1 : instantRun fetch (t :: tl) (al, m) =
        instantRun fetch tl (instant_step fetch (al, m) t) := rfl
    rw [h1, instant_step_pair]
    rw [ih _ _ htl]
    exact instant_step_map_ne fetch [] m t s hts

theorem instantRun_alert_mem (fetch : String → Option Price) (wl : List String)
    (m : PriceMap) (a : Alert) :
    a ∈ (instantRun fetch wl ([], m)).1 → a.symbol ∈ wl := by
  induction wl generalizing m with
  | nil => intro ha; simp [instantRun] at ha
  | cons t tl ih =>
    intro ha
    have h2 : instantRun fetch (t :: tl) ([], m) =
        instantRun fetch tl (instant_step fetch ([], m) t) := rfl
    have hpair : instant_step fetch ([], m) t =
        ((instant_step fetch ([], m) t).1, (instant_step fetch ([], m) t).2) := rfl
    rw [h2, hpair, instantRun_decomp] at ha
    rcases List.mem_append.mp ha with h | h
    · exact List.mem_cons.mpr (Or.inl (instant_step_alert_symbol fetch m t a h))
    · exact List.mem_cons.mpr (Or.inr (ih _ h))

theorem instantRun_alert_iff (fetch : String → Option Price) (wl : List String)
    (m : PriceMap) (s : String) :
    wl.Nodup → s ∈ wl →
    ((∃ a ∈ (instantRun fetch wl ([], m)).1, a.symbol = s) ↔ alertCond fetch m s) := by
  induction wl generalizing m with
  | nil => intro _ hs; cases hs
  | cons t tl ih =>
    intro hnd hs
    obtain ⟨hnotin, hndtl⟩ := List.nodup_cons.mp hnd
    have h2 : instantRun fetch (t :: tl) ([], m) =
        instantRun fetch tl (instant_step fetch ([], m) t) := rfl
    have hpair : instant_step fetch ([], m) t =
        ((instant_step fetch ([], m) t).1, (instant_step fetch ([], m) t).2) := rfl
    rw [h2, hpair, instantRun_decomp]
    rcases List.mem_cons.mp hs with rfl | hstl
    · constructor
      · rintro ⟨a, ha, hsym⟩
        rcases List.mem_append.mp ha with h | h
        · exact (instant_step_alert_iff fetch m s).mp ⟨a, h, hsym⟩
        · have hmem := instantRun_alert_mem fetch tl _ a h
          rw [hsym] at hmem
          exact absurd hmem hnotin
      · intro hc
        obtain ⟨a, ha, hsym⟩ := (instant_step_alert_iff fetch m s).mpr hc
        exact ⟨a, List.mem_append.mpr (Or.inl ha), hsym⟩
    · have hts : s ≠ t := fun h => hnotin (h ▸ hstl)
      have hlk : mapLookup (instant_step fetch ([], m) t).2 s = mapLookup m s :=
        instant_step_map_ne fetch [] m t s hts
      constructor
      · rintro ⟨a, ha, hsym⟩
        rcases List.mem_append.mp ha with h | h
        · have hat := instant_step_alert_symbol fetch m t a h
          rw [hsym] at hat
          exact absurd hat hts
        · exact (alertCond_congr fetch m _ s hlk).mp
            ((ih _ hndtl hstl).mp ⟨a, h, hsym⟩)
      · intro hc
        obtain ⟨a, ha, hsym⟩ := (ih _ hndtl hstl).mpr
          ((alertCond_congr fetch m _ s hlk).mpr hc)
        exact ⟨a, List.mem_append.mpr (Or.inr ha), hsym⟩

theorem instantRun_map_lookup (fetch : String → Option Price) (wl : List String)
    (m : PriceMap) (s : String) :
    wl.Nodup → s ∈ wl →
    mapLookup (instantRun fetch wl ([], m)).2 s = finalEntry fetch m s := by
  induction wl generalizing m with
  | nil => intro _ hs; cases hs
  | cons t tl ih =>
    intro hnd hs
    obtain ⟨hnotin, hndtl⟩ := List.nodup_cons.mp hnd
    have h2 : instantRun fetch (t :: tl) ([], m) =
        instantRun fetch tl (instant_step fetch ([], m) t) := rfl
    have hpair : instant_step fetch ([], m) t =
        ((instant_step fetch ([], m) t).1, (instant_step fetch ([], m) t).2) := rfl
    rw [h2, hpair, instantRun_decomp]
    rcases List.mem_cons.mp hs with rfl | hstl
    · have hfr : mapLookup (instantRun fetch tl ([], (instant_step fetch ([], m) s).2)).2 s =
          mapLookup (instant_step fetch ([], m) s).2 s :=
        instantRun_map_frame fetch tl [] _ s hnotin
      rw [hfr]
      exact instant_step_map_self fetch m s
    · have hts : s ≠ t := fun h => hnotin (h ▸ hstl)
      have hlk : mapLookup (instant_step fetch ([], m) t).2 s = mapLookup m s :=
        instant_step_map_ne fetch [] m t s hts
      rw [ih _ hndtl hstl]
      exact finalEntry_congr fetch m _ s hlk

/-! ### Helper lemmas: the run_alert loop -/

theorem alert_step_pair (fs : String → String → List (String × Price))
    (thr : Price) (acc : List String) (b : Bool) (pr : String × String × String) :
    alert_step fs thr (acc, b) pr =
      (acc ++ (alertLineOf fs thr pr).toList, b || pairFiresB fs thr pr) := by
  unfold alert_step alertLineOf pairFiresB
  cases fs pr.2.1 pr.2.2 with
  | nil => simp
  | cons x rest =>
    cases rest with
    | nil => simp
    | cons y tl =>
      by_cases hc : |pct_change x.2 y.2| ≥ thr
      · simp [hc]
      · simp [hc]

theorem alert_foldl_spec (fs : String → String → List (String × Price))
    (thr : Price) (L : List (String × String × String)) (acc : List String)
    (b : Bool) :
    L.foldl (alert_step fs thr) (acc, b) =
      (acc ++ L.filterMap (alertLineOf fs thr), b || L.any (pairFiresB fs thr)) := by
  induction L generalizing acc b with
  | nil => simp
  | cons pr tl ih =>
    have h1 : (pr :: tl).foldl (alert_step fs thr) (acc, b) =
        tl.foldl (alert_step fs thr) (alert_step fs thr (acc, b) pr) := rfl
    rw [h1, alert_step_pair, ih]
    cases halo : alertLineOf fs thr pr <;>
      simp [halo, Bool.or_assoc]

theorem run_alert_eq (fs : String → String → List (String × Price))
    (thr : Price) (now : String) :
    run_alert fs thr now =
      if alert_pairs.any (pairFiresB fs thr) then
        [TgCall.sendMessage (String.intercalate "\n"
          (["🔔 <b>GTC Market Alert</b>", now, ""] ++
            alert_pairs.filterMap (alertLineOf fs thr)))]
      else [] := by
  unfold run_alert
  rw [alert_foldl_spec, Bool.false_or]
  simp only [List.nil_append]

theorem pairFiresB_iff (fs : String → String → List (String × Price))
    (thr : Price) (pr : String × String × String) :
    pairFiresB fs thr pr = true ↔ pairFires fs thr pr := by
  unfold pairFiresB pairFires
  cases fs pr.2.1 pr.2.2 with
  | nil => simp
  | cons x rest =>
    cases rest with
    | nil => simp
    | cons y tl => simp

/-! ### Helper lemmas: series sorting -/

theorem sortSeries_perm (l : List (String × Price)) :
    List.Perm (sortSeries l) l :=
  List.perm_insertionSort seriesGe l

theorem sortSeries_sorted (l : List (String × Price)) :
    List.Pairwise (fun x y : String × Price => y.1 ≤ x.1) (sortSeries l) := by
  have h := List.sorted_insertionSort seriesGe l
  exact h.imp (fun hab => by
    rcases hab with h1 | ⟨h1, _⟩
    · exact le_of_lt h1
    · exact le_of_eq h1.symm)

theorem sortSeries_strict (l : List (String × Price))
    (h : (l.map Prod.fst).Nodup) :
    List.Pairwise (fun x y : String × Price => y.1 < x.1) (sortSeries l) := by
  have h1 : List.Pairwise seriesGe (sortSeries l) :=
    List.sorted_insertionSort seriesGe l
  have h2 : ((sortSeries l).map Prod.fst).Nodup :=
    (((sortSeries_perm l).map Prod.fst).nodup_iff).mpr h
  have h3 : List.Pairwise (fun x y : String × Price => x.1 ≠ y.1) (sortSeries l) :=
    List.pairwise_map.mp h2
  exact (h1.and h3).imp (fun hab => by
    rcases hab with ⟨h4 | ⟨h4, _⟩, h5⟩
    · exact h4
    · exact absurd h4 h5)

/-! ### Claims -/

/-- C1: the percentage move is computed exactly as the spec formula: for
every pair of prices (in particular every nonzero old), pct_change of
send_once.py and the move expression of instant_alerts in
gtc_bot_async.py both equal (new - old) / old * 100. -/
theorem C1_pct_change_matches_spec :
    ∀ new old : Price, pct_change new old = specPctMove new old ∧
      instantMove new old = specPctMove new old :=
  fun _ _ => ⟨rfl, rfl⟩

/-- C4: the daily_summary message is the header line followed by exactly
one line per WATCHLIST symbol, in WATCHLIST order, showing the formatted
price on success and "data unavailable" on failure, and exactly one
sendMessage is made regardless of how many fetches failed. -/
theorem C4_daily_summary_message (fetch : String → Option Price)
    (now : String) (lp : PriceMap) (bd : BotData) :
    (daily_summary fetch now lp).1 =
      dailyHeader now :: WATCHLIST.map (dailyLine fetch) ∧
    (daily_summary_job fetch now bd).2 =
      [String.intercalate "\n"
        (dailyHeader now :: WATCHLIST.map (dailyLine fetch))] := by
  constructor
  · simpa [daily_summary] using
      dailyRun_lines fetch WATCHLIST ([dailyHeader now], lp)
  · have h := dailyRun_lines fetch WATCHLIST
      ([dailyHeader now], (bdLookup bd "last_prices").getD [])
    simp only [List.singleton_append] at h
    simp [daily_summary_job, daily_summary, h]

/-- C5: the entry block runs run_daily for RUN_MODE daily, run_weekly
for weekly, run_chart for chart, and run_alert for every other value,
including the default alert and any unrecognized string. -/
theorem C5_run_mode_dispatch :
    mainDispatch "daily" = RunChoice.daily ∧
    mainDispatch "weekly" = RunChoice.weekly ∧
    mainDispatch "chart" = RunChoice.chart ∧
    mainDispatch "alert" = RunChoice.alert ∧
    ∀ mode : String, mode ≠ "daily" → mode ≠ "weekly" → mode ≠ "chart" →
      mainDispatch mode = RunChoice.alert := by
  refine ⟨by decide, by decide, by decide, by decide, ?_⟩
  intro mode h1 h2 h3
  unfold mainDispatch
  rw [if_neg h1, if_neg h2, if_neg h3]

/-- C5 witness: an unrecognized RUN_MODE string dispatches to run_alert. -/
theorem C5_run_mode_dispatch_witness :
    mainDispatch "snapshot" = RunChoice.alert :=
  C5_run_mode_dispatch.2.2.2.2 "snapshot" (by decide) (by decide) (by decide)

/-- C7: daily_summary and instant_alerts leave every bot_data entry
other than last_prices unchanged. -/
theorem C7_bot_data_frame (fetch : String → Option Price) (now : String)
    (bd : BotData) (k : String) (hk : k ≠ "last_prices") :
    bdLookup (daily_summary_job fetch now bd).1 k = bdLookup bd k ∧
    bdLookup (instant_alerts_job fetch bd).1 k = bdLookup bd k := by
  constructor
  · exact assocLookup_insert_ne bd "last_prices" k _ hk
  · exact assocLookup_insert_ne bd "last_prices" k _ hk

/-- C7 witness: a job run leaves an unrelated bot_data key untouched. -/
theorem C7_bot_data_frame_witness :
    bdLookup (daily_summary_job (fun _ => none) "t" [("jobs", [])]).1 "jobs" =
      bdLookup [("jobs", [])] "jobs" ∧
    bdLookup (instant_alerts_job (fun _ => none) [("jobs", [])]).1 "jobs" =
      bdLookup [("jobs", [])] "jobs" :=
  C7_bot_data_frame (fun _ => none) "t" [("jobs", [])] "jobs" (by decide)

/-- C8: every 6-character symbol ending in USD (so BTCUSD and the whole
WATCHLIST) goes to get_fx_price, and the get_crypto_price branch is
reachable exactly for symbols ending in USD whose length differs from 6
and whose first three characters are BTC or ETH. -/
theorem C8_price_for_dispatch :
    (∀ s : String, pyEndsWith s "USD" = true → s.length = 6 →
      price_for_source s = PriceSource.fx) ∧
    (∀ s ∈ WATCHLIST, price_for_source s = PriceSource.fx) ∧
    (∀ s : String, price_for_source s = PriceSource.crypto ↔
      (pyEndsWith s "USD" = true ∧ s.length ≠ 6 ∧
        (pyTake s 3 = "BTC" ∨ pyTake s 3 = "ETH"))) := by
  refine ⟨?_, ?_, ?_⟩
  · intro s h1 h2
    unfold price_for_source
    rw [if_pos ⟨h1, h2⟩]
  · intro s hs
    simp only [WATCHLIST, List.mem_cons, List.not_mem_nil, or_false] at hs
    rcases hs with rfl | rfl | rfl | rfl | rfl <;> decide
  · intro s
    unfold price_for_source
    by_cases hc1 : pyEndsWith s "USD" = true ∧ s.length = 6
    · rw [if_pos hc1]
      constructor
      · intro h; exact PriceSource.noConfusion h
      · rintro ⟨_, h2, _⟩; exact absurd hc1.2 h2
    · rw [if_neg hc1]
      by_cases hc2 : pyEndsWith s "USD" = true ∧
          (pyTake s 3 = "BTC" ∨ pyTake s 3 = "ETH")
      · rw [if_pos hc2]
        constructor
        · intro _
          exact ⟨hc2.1, fun h6 => hc1 ⟨hc2.1, h6⟩, hc2.2⟩
        · intro _; rfl
      · rw [if_neg hc2]
        constructor
        · intro h; exact PriceSource.noConfusion h
        · rintro ⟨h1, _, h3⟩; exact absurd ⟨h1, h3⟩ hc2

/-- C8 witness: BTCUSD is 6 characters ending in USD and dispatches to
the FX endpoint. -/
theorem C8_price_for_dispatch_witness :
    price_for_source "BTCUSD" = PriceSource.fx :=
  C8_price_for_dispatch.1 "BTCUSD" (by decide) (by decide)

/-- C10: the three daily-series helpers return their (date, close)
pairs newest first: the result is a permutation of the parsed items,
pairwise descending on the date string, and strictly descending when
the dates are distinct (as dict keys are), so indices 0, 1 and 5 are
the latest, previous and week-ago closes. -/
theorem C10_series_sorted_descending
    (fxRaw cryptoRaw : String → String → List (String × Price))
    (equityRaw : String → List (String × Price)) (a b c d e : String) :
    (List.Perm (fx_daily_series fxRaw a b) (fxRaw a b) ∧
      List.Pairwise (fun x y : String × Price => y.1 ≤ x.1)
        (fx_daily_series fxRaw a b) ∧
      (((fxRaw a b).map Prod.fst).Nodup →
        List.Pairwise (fun x y : String × Price => y.1 < x.1)
          (fx_daily_series fxRaw a b))) ∧
    (List.Perm (crypto_daily cryptoRaw c d) (cryptoRaw c d) ∧
      List.Pairwise (fun x y : String × Price => y.1 ≤ x.1)
        (crypto_daily cryptoRaw c d) ∧
      (((cryptoRaw c d).map Prod.fst).Nodup →
        List.Pairwise (fun x y : String × Price => y.1 < x.1)
          (crypto_daily cryptoRaw c d))) ∧
    (List.Perm (equity_daily equityRaw e) (equityRaw e) ∧
      List.Pairwise (fun x y : String × Price => y.1 ≤ x.1)
        (equity_daily equityRaw e) ∧
      (((equityRaw e).map Prod.fst).Nodup →
        List.Pairwise (fun x y : String × Price => y.1 < x.1)
          (equity_daily equityRaw e))) :=
  ⟨⟨sortSeries_perm _, sortSeries_sorted _, fun h => sortSeries_strict _ h⟩,
   ⟨sortSeries_perm _, sortSeries_sorted _, fun h => sortSeries_strict _ h⟩,
   ⟨sortSeries_perm _, sortSeries_sorted _, fun h => sortSeries_strict _ h⟩⟩

/-- C10 witness: on a concrete two-day response with distinct dates the
sorted series is strictly descending by date. -/
theorem C10_series_sorted_descending_witness :
    List.Pairwise (fun x y : String × Price => y.1 < x.1)
      (fx_daily_series
        (fun _ _ => [("2024-01-01", 1), ("2024-01-02", 2)]) "EUR" "USD") :=
  (C10_series_sorted_descending
    (fun _ _ => [("2024-01-01", 1), ("2024-01-02", 2)])
    (fun _ _ => []) (fun _ => []) "EUR" "USD" "BTC" "USD" "SPY").1.2.2
    (by decide)

/-- C2: alerts are threshold-gated in both revisions: run_alert sends a
message iff some watched pair with at least two daily closes moves at
least the threshold (and the message lists exactly the firing pairs),
and instant_alerts alerts a watchlist symbol iff its fetch succeeded, a
nonzero previous price is stored, and the absolute move against it is
at least ALERT_MOVE_PCT. -/
theorem C2_alerts_threshold_gated
    (fs : String → String → List (String × Price)) (thr : Price) (now : String)
    (fetch : String → Option Price) (m : PriceMap) (s : String)
    (hs : s ∈ WATCHLIST) :
    (run_alert fs thr now ≠ [] ↔ ∃ pr ∈ alert_pairs, pairFires fs thr pr) ∧
    run_alert fs thr now =
      (if alert_pairs.any (pairFiresB fs thr) then
        [TgCall.sendMessage (String.intercalate "\n"
          (["🔔 <b>GTC Market Alert</b>", now, ""] ++
            alert_pairs.filterMap (alertLineOf fs thr)))]
      else []) ∧
    ((∃ a ∈ (instant_alerts fetch m).1, a.symbol = s) ↔ alertCond fetch m s) := by
  refine ⟨?_, run_alert_eq fs thr now, ?_⟩
  · rw [run_alert_eq]
    by_cases h : alert_pairs.any (pairFiresB fs thr) = true
    · rw [if_pos h]
      apply iff_of_true
      · simp
      · obtain ⟨pr, hpr, hb⟩ := List.any_eq_true.mp h
        exact ⟨pr, hpr, (pairFiresB_iff fs thr pr).mp hb⟩
    · rw [if_neg h]
      apply iff_of_false
      · simp
      · rintro ⟨pr, hpr, hf⟩
        exact h (List.any_eq_true.mpr ⟨pr, hpr, (pairFiresB_iff fs thr pr).mpr hf⟩)
  · exact instantRun_alert_iff fetch WATCHLIST m s (by decide) hs

/-- C2 witness: the instant-alert gate instantiated at EURUSD with a
concrete fetch and map. -/
theorem C2_alerts_threshold_gated_witness :
    (∃ a ∈ (instant_alerts (fun _ => none) []).1, a.symbol = "EURUSD") ↔
      alertCond (fun _ => none) [] "EURUSD" :=
  (C2_alerts_threshold_gated (fun _ _ => []) (1 / 2) "t" (fun _ => none) []
    "EURUSD" (by decide)).2.2

/-- C3 counterexample: in a run of instant_alerts where the EURUSD fetch
succeeds at 1.001 but a stored previous price 1 keeps the move below
the threshold, the map entry stays 1 and is not the fetched price. -/
theorem C3_counterexample :
    cexFetch "EURUSD" = some (1001 / 1000) ∧
    "EURUSD" ∈ WATCHLIST ∧
    mapLookup (instant_alerts cexFetch cexMap).2 "EURUSD" = some 1 ∧
    some ((1 : Price)) ≠ some ((1001 : Price) / 1000) := by
  refine ⟨by simp [cexFetch], by decide, ?_, by norm_num⟩
  simp [instant_alerts, instantRun, WATCHLIST, instant_step, cexFetch, cexMap,
    mapLookup, mapInsert, assocLookup, assocInsert, instantMove, ALERT_MOVE_PCT]
  rw [if_neg (by rw [abs_of_nonneg (by norm_num)]; norm_num)]
  simp [assocLookup]

/-- C3 (amended): after a daily_summary run every successfully fetched
watchlist symbol maps to its fetched price; after an instant_alerts run
it maps to the fetched price unless a nonzero previous price was stored
and the move stayed below ALERT_MOVE_PCT, in which case the entry keeps
the previous price. -/
theorem C3_last_seen_price_amended (fetch : String → Option Price)
    (now : String) (m : PriceMap) (s : String) (p : Price)
    (hs : s ∈ WATCHLIST) (hp : fetch s = some p) :
    mapLookup (daily_summary fetch now m).2 s = some p ∧
    mapLookup (instant_alerts fetch m).2 s = finalEntry fetch m s ∧
    finalEntry fetch m s =
      (match mapLookup m s with
       | some old =>
         if old ≠ 0 ∧ ¬ |instantMove p old| ≥ ALERT_MOVE_PCT then some old
         else some p
       | none => some p) := by
  refine ⟨?_, ?_, ?_⟩
  · exact dailyRun_map_mem fetch WATCHLIST _ s p hs hp
  · exact instantRun_map_lookup fetch WATCHLIST m s (by decide) hs
  · unfold finalEntry
    rw [hp]

/-- C3 witness: the amended statement at a concrete fetch and empty map. -/
theorem C3_last_seen_price_amended_witness :
    mapLookup (daily_summary (fun _ => some 2) "t" []).2 "EURUSD" = some 2 ∧
    mapLookup (instant_alerts (fun _ => some 2) []).2 "EURUSD" =
      finalEntry (fun _ => some 2) [] "EURUSD" ∧
    finalEntry (fun _ => some 2) [] "EURUSD" =
      (match mapLookup [] "EURUSD" with
       | some old =>
         if old ≠ 0 ∧ ¬ |instantMove 2 old| ≥ ALERT_MOVE_PCT then some old
         else some 2
       | none => some 2) :=
  C3_last_seen_price_amended (fun _ => some 2) "t" [] "EURUSD" 2 (by decide) rfl

/-- C6 counterexample: with every daily series empty, an alert-mode run
of send_once.py makes zero outbound messaging calls rather than exactly
one. -/
theorem C6_counterexample :
    run_alert (fun _ _ => []) (1 / 2) "now" = [] ∧
    (run_alert (fun _ _ => []) (1 / 2) "now").length ≠ 1 := by
  have h : run_alert (fun _ _ => []) (1 / 2) "now" = [] := by
    rw [run_alert_eq]
    simp [alert_pairs, pairFiresB]
  exact ⟨h, by rw [h]; simp⟩

/-- C6 (amended): daily, weekly and chart runs make exactly one
outbound messaging call; an alert run makes at most one, and exactly
one iff some pair fires. -/
theorem C6_one_send_amended
    (fxRealtime : String → String → Option Price)
    (headlines : List (String × String))
    (fxRaw cryptoRaw : String → String → List (String × Price))
    (equityRaw : String → List (String × Price))
    (fs : String → String → List (String × Price)) (thr : Price)
    (now : String) :
    (run_daily fxRealtime headlines now).length = 1 ∧
    (run_weekly fxRaw cryptoRaw equityRaw headlines now).length = 1 ∧
    (run_chart fxRaw cryptoRaw equityRaw now).length = 1 ∧
    (run_alert fs thr now).length ≤ 1 ∧
    ((run_alert fs thr now).length = 1 ↔ ∃ pr ∈ alert_pairs, pairFires fs thr pr) := by
  refine ⟨rfl, rfl, rfl, ?_, ?_⟩
  · rw [run_alert_eq]
    by_cases h : alert_pairs.any (pairFiresB fs thr) = true
    · rw [if_pos h]
      simp
    · rw [if_neg h]
      simp
  · rw [run_alert_eq]
    by_cases h : alert_pairs.any (pairFiresB fs thr) = true
    · rw [if_pos h]
      apply iff_of_true rfl
      obtain ⟨pr, hpr, hb⟩ := List.any_eq_true.mp h
      exact ⟨pr, hpr, (pairFiresB_iff fs thr pr).mp hb⟩
    · rw [if_neg h]
      apply iff_of_false
      · simp
      · rintro ⟨pr, hpr, hf⟩
        exact h (List.any_eq_true.mpr ⟨pr, hpr, (pairFiresB_iff fs thr pr).mpr hf⟩)

/-- C9: an instant alert is only ever emitted for a symbol whose stored
previous price is nonzero (so the division's denominator is nonzero),
and a stored price of 0.0 behaves like an absent entry: no alert, and
the entry is overwritten with the fetched price. -/
theorem C9_no_division_by_zero (fetch : String → Option Price) (m : PriceMap)
    (s : String) (p : Price) (hs : s ∈ WATCHLIST) :
    (∀ a ∈ (instant_alerts fetch m).1,
      ∃ old, mapLookup m a.symbol = some old ∧ old ≠ 0) ∧
    (mapLookup m s = some 0 → fetch s = some p →
      (¬ ∃ a ∈ (instant_alerts fetch m).1, a.symbol = s) ∧
      mapLookup (instant_alerts fetch m).2 s = some p) := by
  constructor
  · intro a ha
    have hmem : a.symbol ∈ WATCHLIST := instantRun_alert_mem fetch WATCHLIST m a ha
    obtain ⟨p1, old, _, hold, h0, _⟩ :=
      (instantRun_alert_iff fetch WATCHLIST m a.symbol (by decide) hmem).mp
        ⟨a, ha, rfl⟩
    exact ⟨old, hold, h0⟩
  · intro h0 hp
    constructor
    · rintro ⟨a, ha, hsym⟩
      obtain ⟨p1, old, _, hold, hne, _⟩ :=
        (instantRun_alert_iff fetch WATCHLIST m s (by decide) hs).mp ⟨a, ha, hsym⟩
      rw [h0] at hold
      exact hne (Option.some.inj hold).symm
    · have hl : mapLookup (instant_alerts fetch m).2 s = finalEntry fetch m s :=
        instantRun_map_lookup fetch WATCHLIST m s (by decide) hs
      rw [hl]
      unfold finalEntry
      rw [hp, h0]
      simp

/-- C9 witness: with EURUSD stored at 0 and a successful fetch at 1, no
alert fires and the entry is overwritten. -/
theorem C9_no_division_by_zero_witness :
    (∀ a ∈ (instant_alerts (fun _ => some 1) ([("EURUSD", 0)] : PriceMap)).1,
      ∃ old, mapLookup [("EURUSD", 0)] a.symbol = some old ∧ old ≠ 0) ∧
    (mapLookup [("EURUSD", 0)] "EURUSD" = some 0 →
      (fun _ : String => some (1 : Price)) "EURUSD" = some 1 →
      (¬ ∃ a ∈ (instant_alerts (fun _ => some 1) ([("EURUSD", 0)] : PriceMap)).1,
        a.symbol = "EURUSD") ∧
      mapLookup (instant_alerts (fun _ => some 1)
        ([("EURUSD", 0)] : PriceMap)).2 "EURUSD" = some 1) :=
  C9_no_division_by_zero (fun _ => some 1) [("EURUSD", 0)] "EURUSD" 1 (by decide)
